import Mathlib

/-!
Verification development for a Qt tree-view example program
(`qt_tree_view_example.py`): a standard item model (`ItemModel`), a
column-filtering proxy (`ColumnFilterProxy`) and a drag-and-drop
row-reordering proxy (`DragDropReorderProxy`).  The Python classes are
shallowly embedded as Lean structures with explicit state passing;
Python exceptions (IndexError from list indexing and popping) surface
as `Option`.
-/

/-- Qt drop actions (the subset the program mentions). -/
inductive DropAction where
  | MoveAction
  | CopyAction
  | IgnoreAction
  | LinkAction
deriving DecidableEq, Repr

/-- A Qt model index: a validity flag plus row and column.  The invalid
index `QModelIndex()` reports row and column `-1`, as in Qt. -/
structure QModelIndex where
  valid : Bool
  row : Int
  column : Int
deriving DecidableEq, Repr

/-- The invalid index `QModelIndex()`. -/
def QModelIndex.invalid : QModelIndex := ⟨false, -1, -1⟩

/-- `createIndex(row, column)`: a valid index carrying `row` and `column`. -/
def createIndex (row column : Int) : QModelIndex := ⟨true, row, column⟩

/-- Mime data.  `formats` models the formats the payload carries;
`payloadRows`/`payloadCols` model the grid of standard items obtained by
decoding the payload into a temporary `QStandardItemModel` (an item may
be absent, hence `Option`).  Items are modelled by their data (`Nat`);
`clone` is the identity on values. -/
structure QMimeData where
  formats : List String
  payloadRows : List (List (Option Nat))
  payloadCols : Nat
deriving DecidableEq, Repr

/-- `QMimeData.hasFormat`. -/
def QMimeData.hasFormat (d : QMimeData) (f : String) : Bool :=
  f ∈ d.formats

/-! ### Python list primitives

Python list operations used by the program, with Python's exact
semantics: negative indices count from the end, out-of-range indexing
raises (modelled as `none`), and `insert` clamps its position. -/

/-- Python `l[i]`: negative indices wrap once from the end; anything
still out of range raises IndexError (`none`). -/
def pyGet (l : List Int) (i : Int) : Option Int :=
  let j : Int := if i < 0 then i + l.length else i
  if 0 ≤ j ∧ j < l.length then some (l.getD j.toNat 0) else none

/-- Python `l.index(v)`: position of the first occurrence of `v`, or
ValueError (`none`) when `v` does not occur. -/
def pyIndexOf (l : List Int) (v : Int) : Option Nat :=
  match l with
  | [] => none
  | x :: xs => if x = v then some 0 else (pyIndexOf xs v).map (· + 1)

/-- Insertion at a (already clamped) natural position, as Python's
`list.insert` behaves once its argument is normalised. -/
def insertAt {α : Type} : Nat → α → List α → List α
  | 0, v, l => v :: l
  | _ + 1, v, [] => [v]
  | n + 1, v, x :: xs => x :: insertAt n v xs

/-- Python `l.insert(i, v)`: negative positions count from the end and
clamp at `0`; positions past the end clamp to the length. -/
def pyInsert (l : List Int) (i : Int) (v : Int) : List Int :=
  let j : Int := if i < 0 then max 0 (l.length + i) else min i l.length
  insertAt j.toNat v l

/-- Python `l.pop(i)`: removes and returns the element at `i` (negative
indices wrap once); IndexError (`none`) when out of range. -/
def pyPop (l : List Int) (i : Int) : Option (Int × List Int) :=
  let j : Int := if i < 0 then i + l.length else i
  if 0 ≤ j ∧ j < l.length then some (l.getD j.toNat 0, l.eraseIdx j.toNat) else none

/-! ### ColumnFilterProxy -/

/-- `ColumnFilterProxy`: state is the set `_visible_columns`
(a Python `set[int]`, modelled as a `Finset Int`). -/
structure ColumnFilterProxy where
  _visible_columns : Finset Int
deriving DecidableEq

/-- `ColumnFilterProxy.set_visible_columns`: stores the set and
invalidates the filter (a GUI-side effect with no model state). -/
def ColumnFilterProxy.set_visible_columns (p : ColumnFilterProxy)
    (cols : Finset Int) : ColumnFilterProxy :=
  { p with _visible_columns := cols }

/-- `ColumnFilterProxy.filterAcceptsColumn`: membership of the source
column in `_visible_columns`; the source parent is ignored. -/
def ColumnFilterProxy.filterAcceptsColumn (p : ColumnFilterProxy)
    (source_column : Int) (_source_parent : QModelIndex) : Bool :=
  source_column ∈ p._visible_columns

/-! ### DragDropReorderProxy -/

/-- `DragDropReorderProxy` state.  `srcRowCount` and `srcColumnCount`
stand for the wrapped source model's `rowCount()` and (top-level)
`columnCount()`.  `_current_drag_row` is `none` while the attribute is
absent (no drag recorded yet); `mimeData` sets it. -/
structure DragDropReorderProxy where
  srcRowCount : Nat
  srcColumnCount : Int
  _row_order : List Int
  _current_drag_row : Option Int
deriving DecidableEq, Repr

namespace DragDropReorderProxy

/-- `_reset_mapping`: `_row_order = list(range(sourceModel().rowCount()))`. -/
def _reset_mapping (p : DragDropReorderProxy) : DragDropReorderProxy :=
  { p with _row_order := (List.range p.srcRowCount).map Int.ofNat }

/-- `rowCount`: the length of `_row_order`. -/
def rowCount (p : DragDropReorderProxy) : Int :=
  p._row_order.length

/-- `columnCount`: delegates to the source model. -/
def columnCount (p : DragDropReorderProxy) : Int :=
  p.srcColumnCount

/-- `index(row, column, parent)`: invalid for a valid parent or
out-of-range row/column, otherwise `createIndex(row, column)`. -/
def index (p : DragDropReorderProxy) (row column : Int)
    (parent : QModelIndex) : QModelIndex :=
  if parent.valid then QModelIndex.invalid
  else if 0 ≤ row ∧ row < p.rowCount ∧ 0 ≤ column ∧ column < p.columnCount then
    createIndex row column
  else QModelIndex.invalid

/-- Modelled from the spec: the source model's `index(row, column)` is
framework behaviour (the wrapped proxy/item model is a toolkit class,
not code of this repository) — it yields a valid index carrying the
given row and column when both are in range, and the invalid index
otherwise. -/
def sourceIndex (p : DragDropReorderProxy) (row column : Int) : QModelIndex :=
  if 0 ≤ row ∧ row < p.srcRowCount ∧ 0 ≤ column ∧ column < p.srcColumnCount then
    createIndex row column
  else QModelIndex.invalid

/-- `mapToSource`: invalid in, invalid out; otherwise look up
`_row_order[proxy_index.row()]` (Python indexing, may raise) and ask the
source model for that row at the proxy index's column. -/
def mapToSource (p : DragDropReorderProxy) (proxy_index : QModelIndex) :
    Option QModelIndex :=
  if ¬ proxy_index.valid then some QModelIndex.invalid
  else
    match pyGet p._row_order proxy_index.row with
    | none => none
    | some src_row => some (p.sourceIndex src_row proxy_index.column)

/-- `mapFromSource`: invalid in, invalid out; a source row absent from
`_row_order` (ValueError) gives the invalid index; otherwise the proxy
index at the position of that row. -/
def mapFromSource (p : DragDropReorderProxy) (source_index : QModelIndex) :
    QModelIndex :=
  if ¬ source_index.valid then QModelIndex.invalid
  else
    match pyIndexOf p._row_order source_index.row with
    | none => QModelIndex.invalid
    | some row => p.index row source_index.column QModelIndex.invalid

/-- `supportedDropActions`. -/
def supportedDropActions : DropAction := DropAction.MoveAction

/-- `dropMimeData`: rejects anything but `MoveAction`; resolves a `-1`
row to the parent's row (valid parent) or to `rowCount()`; rejects when
no drag row was ever recorded; otherwise pops the entry at
`_current_drag_row` and reinserts it at `min(row, len(_row_order))`
(length after the pop).  `none` is a raised IndexError. -/
def dropMimeData (p : DragDropReorderProxy) (_data : QMimeData)
    (action : DropAction) (row _column : Int) (parent : QModelIndex) :
    Option (Bool × DragDropReorderProxy) :=
  if action ≠ DropAction.MoveAction then some (false, p)
  else
    let row := if row = -1 ∧ parent.valid then parent.row
               else if row = -1 then p.rowCount else row
    match p._current_drag_row with
    | none => some (false, p)
    | some drag =>
      match pyPop p._row_order drag with
      | none => none
      | some (sel, rest) =>
        some (true, { p with _row_order := pyInsert rest (min row rest.length) sel })

/-- `mimeData`: records the first index's row as `_current_drag_row`
(the toolkit's payload construction in `super().mimeData` carries no
proxy state). -/
def mimeData (p : DragDropReorderProxy) (indexes : List QModelIndex) :
    DragDropReorderProxy :=
  match indexes with
  | [] => p
  | idx :: _ => { p with _current_drag_row := some idx.row }

end DragDropReorderProxy

/-! ### ItemModel -/

/-- `ItemModel`: a `QStandardItemModel` whose top-level rows are lists
of items (items modelled by their data). -/
structure ItemModel where
  rows : List (List Nat)
deriving DecidableEq, Repr

namespace ItemModel

/-- `rowCount`. -/
def rowCount (m : ItemModel) : Int :=
  m.rows.length

/-- Modelled from the spec: `QStandardItemModel.insertRow` is framework
behaviour — it inserts the given items as a new row at the given
position when `0 ≤ row ≤ rowCount()` and does nothing otherwise (its
Boolean result is discarded by the caller). -/
def insertRow (m : ItemModel) (row : Int) (items : List Nat) : ItemModel :=
  if 0 ≤ row ∧ row ≤ (m.rows.length : Int) then
    { rows := insertAt row.toNat items m.rows }
  else m

/-- The decode-and-collect phase of `ItemModel.dropMimeData`: the mime
payload is decoded into a temporary model (`payloadRows`/`payloadCols`),
then each grid cell is cloned, a missing item becoming a default
`QStandardItem()` (data `0`). -/
def collectRows (data : QMimeData) : List (List Nat) :=
  (List.range data.payloadRows.length).map fun r =>
    (List.range data.payloadCols).map fun c =>
      match (data.payloadRows.getD r []).getD c none with
      | some item => item
      | none => 0

/-- The insertion loop of `ItemModel.dropMimeData`:
`for i, items in enumerate(copied_rows): self.insertRow(row + i, items)`. -/
def insertLoop (m : ItemModel) (row : Int) : List (List Nat) → ItemModel
  | [] => m
  | items :: rest => insertLoop (m.insertRow row items) (row + 1) rest

/-- `ItemModel.dropMimeData`: rejects `IgnoreAction` and payloads
without the `application/x-qstandarditemmodeldatalist` format; resolves
a `-1` row to `rowCount()`; decodes the payload and inserts the copied
rows one by one at consecutive positions; returns `True`. -/
def dropMimeData (m : ItemModel) (data : QMimeData) (action : DropAction)
    (row _column : Int) (_parent : QModelIndex) : Bool × ItemModel :=
  if action = DropAction.IgnoreAction then (false, m)
  else if ¬ data.hasFormat "application/x-qstandarditemmodeldatalist" then (false, m)
  else
    let row := if row = -1 then m.rowCount else row
    (true, insertLoop m row (collectRows data))

end ItemModel

/-! ### Helper lemmas on the Python list primitives -/

theorem pyGet_of_inrange (l : List Int) (i : Int) (h0 : 0 ≤ i)
    (hl : i < (l.length : Int)) : pyGet l i = some (l.getD i.toNat 0) := by
  unfold pyGet
  have : ¬ i < 0 := not_lt.mpr h0
  simp only [this, if_false]
  rw [if_pos ⟨h0, hl⟩]

theorem pyPop_of_inrange (l : List Int) (i : Int) (h0 : 0 ≤ i)
    (hl : i < (l.length : Int)) :
    pyPop l i = some (l.getD i.toNat 0, l.eraseIdx i.toNat) := by
  unfold pyPop
  have : ¬ i < 0 := not_lt.mpr h0
  simp only [this, if_false]
  rw [if_pos ⟨h0, hl⟩]

theorem pyIndexOf_eq_none_iff (l : List Int) (v : Int) :
    pyIndexOf l v = none ↔ v ∉ l := by
  induction l with
  | nil => simp [pyIndexOf]
  | cons x xs ih =>
    by_cases hx : x = v
    · simp [pyIndexOf, hx]
    · simp only [pyIndexOf, if_neg hx, Option.map_eq_none', ih, List.mem_cons]
      constructor
      · intro h hmem
        rcases hmem with h1 | h2
        · exact hx h1.symm
        · exact h h2
      · intro h hmem
        exact h (Or.inr hmem)

theorem pyIndexOf_getD_of_nodup (l : List Int) (n : Nat) (hn : n < l.length)
    (hnd : l.Nodup) : pyIndexOf l (l.getD n 0) = some n := by
  induction l generalizing n with
  | nil => simp at hn
  | cons x xs ih =>
    cases n with
    | zero => simp [pyIndexOf]
    | succ m =>
      have hm : m < xs.length := by simpa using hn
      have hmem : xs.getD m 0 ∈ xs := by
        rw [List.getD_eq_getElem _ _ hm]
        exact List.getElem_mem hm
      have hx : x ≠ xs.getD m 0 := by
        intro hcontra
        exact (List.nodup_cons.mp hnd).1 (hcontra ▸ hmem)
      have hgd : (x :: xs).getD (m + 1) 0 = xs.getD m 0 := by
        simp [List.getD]
      rw [hgd]
      simp only [pyIndexOf, if_neg hx, ih m hm (List.nodup_cons.mp hnd).2]
      rfl

theorem insertAt_perm {α : Type} (n : Nat) (v : α) (l : List α) :
    (insertAt n v l).Perm (v :: l) := by
  induction n generalizing l with
  | zero => exact List.Perm.refl _
  | succ m ih =>
    cases l with
    | nil => exact List.Perm.refl _
    | cons x xs =>
      have h1 : insertAt (m + 1) v (x :: xs) = x :: insertAt m v xs := rfl
      rw [h1]
      exact List.Perm.trans (List.Perm.cons x (ih xs)) (List.Perm.swap v x xs)

theorem getD_cons_eraseIdx_perm (l : List Int) (n : Nat) (hn : n < l.length) :
    (l.getD n 0 :: l.eraseIdx n).Perm l := by
  induction l generalizing n with
  | nil => simp at hn
  | cons x xs ih =>
    cases n with
    | zero => exact List.Perm.refl _
    | succ m =>
      have hm : m < xs.length := by simpa using hn
      have hgd : (x :: xs).getD (m + 1) 0 = xs.getD m 0 := by simp [List.getD]
      have herase : (x :: xs).eraseIdx (m + 1) = x :: xs.eraseIdx m := rfl
      rw [hgd, herase]
      exact List.Perm.trans (List.Perm.swap x (xs.getD m 0) (xs.eraseIdx m))
        (List.Perm.cons x (ih m hm))

theorem pyInsert_perm (l : List Int) (i : Int) (v : Int) :
    (pyInsert l i v).Perm (v :: l) := by
  unfold pyInsert
  exact insertAt_perm _ v l

theorem insertAt_eq_take_drop {α : Type} (n : Nat) (v : α) (l : List α)
    (hn : n ≤ l.length) : insertAt n v l = l.take n ++ v :: l.drop n := by
  induction n generalizing l with
  | zero => simp [insertAt]
  | succ m ih =>
    cases l with
    | nil => simp at hn
    | cons x xs =>
      have hm : m ≤ xs.length := Nat.succ_le_succ_iff.mp hn
      calc insertAt (m + 1) v (x :: xs) = x :: insertAt m v xs := rfl
        _ = x :: (xs.take m ++ v :: xs.drop m) := by rw [ih xs hm]
        _ = (x :: xs).take (m + 1) ++ v :: (x :: xs).drop (m + 1) := by simp

theorem insertLoop_rows (xs : List (List Nat)) (m : ItemModel) (t : Nat)
    (ht : t ≤ m.rows.length) :
    (ItemModel.insertLoop m (t : Int) xs).rows =
      m.rows.take t ++ xs ++ m.rows.drop t := by
  induction xs generalizing m t with
  | nil => simp [ItemModel.insertLoop]
  | cons x rest ih =>
    have hcond : (0 : Int) ≤ (t : Int) ∧ (t : Int) ≤ (m.rows.length : Int) := by
      constructor
      · exact Int.natCast_nonneg t
      · exact_mod_cast ht
    have hrow : (m.insertRow (t : Int) x).rows =
        m.rows.take t ++ x :: m.rows.drop t := by
      unfold ItemModel.insertRow
      rw [if_pos hcond]
      simp only [Int.toNat_natCast]
      exact insertAt_eq_take_drop t x m.rows ht
    have hA : (m.rows.take t).length = t := by
      rw [List.length_take]
      exact Nat.min_eq_left ht
    have hlen1 : (m.rows.take t ++ [x]).length = t + 1 := by
      simp [hA]
    have hlen : (m.insertRow (t : Int) x).rows.length = m.rows.length + 1 := by
      rw [hrow]
      simp only [List.length_append, List.length_cons, List.length_drop, hA]
      omega
    have hstep : ItemModel.insertLoop m (t : Int) (x :: rest) =
        ItemModel.insertLoop (m.insertRow (t : Int) x) ((t : Int) + 1) rest := rfl
    have hcast : ((t : Int) + 1) = ((t + 1 : Nat) : Int) := by push_cast; ring
    have ht1 : t + 1 ≤ (m.insertRow (t : Int) x).rows.length := by
      rw [hlen]; omega
    rw [hstep, hcast, ih (m.insertRow (t : Int) x) (t + 1) ht1, hrow]
    have hsplit : m.rows.take t ++ x :: m.rows.drop t =
        (m.rows.take t ++ [x]) ++ m.rows.drop t := by simp
    rw [hsplit]
    rw [← hlen1]
    rw [List.take_left, List.drop_left]
    simp

theorem pyPop_perm (l : List Int) (i x : Int) (r : List Int)
    (h : pyPop l i = some (x, r)) : (x :: r).Perm l := by
  simp only [pyPop] at h
  generalize hj : (if i < 0 then i + (l.length : Int) else i) = j at h
  split_ifs at h with hc
  · simp only [Option.some.injEq, Prod.mk.injEq] at h
    obtain ⟨hx, hr⟩ := h
    subst hx
    subst hr
    have hn : j.toNat < l.length := by omega
    exact getD_cons_eraseIdx_perm l j.toNat hn

theorem pyInsert_of_nonneg (l : List Int) (i v : Int) (h : 0 ≤ i) :
    pyInsert l i v = insertAt (min i (l.length : Int)).toNat v l := by
  simp only [pyInsert]
  rw [if_neg (not_lt.mpr h)]

/-! ### Sample states used by witnesses -/

/-- A proxy over a 3-row, 2-column source with a recorded drag row. -/
def sampleProxy : DragDropReorderProxy := ⟨3, 2, [0, 1, 2], some 1⟩

/-- A proxy on which no drag was ever recorded. -/
def sampleProxyNoDrag : DragDropReorderProxy := ⟨3, 2, [0, 1, 2], none⟩

/-- Mime data carrying the standard-item-model format and one decoded row. -/
def sampleMime : QMimeData :=
  ⟨["application/x-qstandarditemmodeldatalist"], [[some 5, some 6]], 2⟩

/-- Mime data without the standard-item-model format. -/
def sampleMimeNoFmt : QMimeData := ⟨[], [], 0⟩

/-- A two-row item model. -/
def sampleModel : ItemModel := ⟨[[1, 2], [3, 4]]⟩

/-! ### Claim theorems -/

/-- C4: column filtering is membership in the configured set — after
`set_visible_columns cols`, `filterAcceptsColumn c parent` is `True` iff
`c ∈ cols`, and the result never depends on the parent argument. -/
theorem c4_filter_accepts_column_iff_mem (p q : ColumnFilterProxy)
    (cols : Finset Int) (c : Int) (parent parent2 : QModelIndex) :
    ((p.set_visible_columns cols).filterAcceptsColumn c parent = true ↔ c ∈ cols)
    ∧ q.filterAcceptsColumn c parent = q.filterAcceptsColumn c parent2 := by
  constructor
  · simp [ColumnFilterProxy.set_visible_columns, ColumnFilterProxy.filterAcceptsColumn]
  · rfl

/-- C5: `DragDropReorderProxy.index` returns the invalid index whenever
the parent is valid, the row is out of `[0, rowCount)`, or the column is
out of `[0, columnCount)`; for an invalid parent and in-range row and
column it returns the valid index carrying that row and column. -/
theorem c5_index_invalid_fallback (p : DragDropReorderProxy) (row col : Int)
    (parent : QModelIndex) :
    (parent.valid = true → p.index row col parent = QModelIndex.invalid)
    ∧ (¬ (0 ≤ row ∧ row < p.rowCount) → p.index row col parent = QModelIndex.invalid)
    ∧ (¬ (0 ≤ col ∧ col < p.columnCount) → p.index row col parent = QModelIndex.invalid)
    ∧ (parent.valid = false → 0 ≤ row → row < p.rowCount → 0 ≤ col →
        col < p.columnCount → p.index row col parent = createIndex row col) := by
  refine ⟨?_, ?_, ?_, ?_⟩
  · intro h
    simp [DragDropReorderProxy.index, h]
  · intro h
    unfold DragDropReorderProxy.index
    split_ifs with h1 h2
    · rfl
    · exact absurd ⟨h2.1, h2.2.1⟩ h
    · rfl
  · intro h
    unfold DragDropReorderProxy.index
    split_ifs with h1 h2
    · rfl
    · exact absurd ⟨h2.2.2.1, h2.2.2.2⟩ h
    · rfl
  · intro hp h1 h2 h3 h4
    unfold DragDropReorderProxy.index
    rw [if_neg (by simp [hp]), if_pos ⟨h1, h2, h3, h4⟩]

/-- Witness for C5 at a concrete state: a valid index for in-range input
and the invalid index under a valid parent. -/
theorem c5_index_invalid_fallback_witness :
    sampleProxy.index 1 1 QModelIndex.invalid = createIndex 1 1
    ∧ sampleProxy.index 1 1 (createIndex 0 0) = QModelIndex.invalid := by
  constructor
  · exact (c5_index_invalid_fallback sampleProxy 1 1 QModelIndex.invalid).2.2.2
      (by decide) (by decide) (by decide) (by decide) (by decide)
  · exact (c5_index_invalid_fallback sampleProxy 1 1 (createIndex 0 0)).1 (by decide)

/-- C6: `DragDropReorderProxy.dropMimeData` returns `False` for every
action other than `MoveAction` and leaves the proxy state unchanged. -/
theorem c6_drop_rejects_non_move (p : DragDropReorderProxy) (data : QMimeData)
    (action : DropAction) (row col : Int) (parent : QModelIndex)
    (h : action ≠ DropAction.MoveAction) :
    p.dropMimeData data action row col parent = some (false, p) := by
  unfold DragDropReorderProxy.dropMimeData
  rw [if_pos h]

/-- Witness for C6: a concrete `CopyAction` drop is rejected without a
state change. -/
theorem c6_drop_rejects_non_move_witness :
    sampleProxy.dropMimeData sampleMime DropAction.CopyAction 0 0
      QModelIndex.invalid = some (false, sampleProxy) :=
  c6_drop_rejects_non_move sampleProxy sampleMime DropAction.CopyAction 0 0
    QModelIndex.invalid (by decide)

/-- C10: when no drag row was ever recorded (`_current_drag_row` absent),
`dropMimeData` returns `False` even for a `MoveAction`, with `_row_order`
unchanged. -/
theorem c10_drop_without_recorded_drag (p : DragDropReorderProxy)
    (data : QMimeData) (row col : Int) (parent : QModelIndex)
    (h : p._current_drag_row = none) :
    p.dropMimeData data DropAction.MoveAction row col parent = some (false, p) := by
  simp [DragDropReorderProxy.dropMimeData, h]

/-- Witness for C10: a concrete `MoveAction` drop on a proxy with no
recorded drag is rejected without a state change. -/
theorem c10_drop_without_recorded_drag_witness :
    sampleProxyNoDrag.dropMimeData sampleMime DropAction.MoveAction 0 0
      QModelIndex.invalid = some (false, sampleProxyNoDrag) :=
  c10_drop_without_recorded_drag sampleProxyNoDrag sampleMime 0 0
    QModelIndex.invalid (by decide)

/-- C8: both mapping functions return the invalid index on invalid
input — `mapToSource` of an invalid proxy index, `mapFromSource` of an
invalid source index, and `mapFromSource` of a source index whose row
does not occur in `_row_order`. -/
theorem c8_mapping_invalid_inputs (p : DragDropReorderProxy)
    (idx src : QModelIndex) :
    (idx.valid = false → p.mapToSource idx = some QModelIndex.invalid)
    ∧ (src.valid = false → p.mapFromSource src = QModelIndex.invalid)
    ∧ (src.valid = true → src.row ∉ p._row_order →
        p.mapFromSource src = QModelIndex.invalid) := by
  refine ⟨?_, ?_, ?_⟩
  · intro h
    simp [DragDropReorderProxy.mapToSource, h]
  · intro h
    simp [DragDropReorderProxy.mapFromSource, h]
  · intro hv hmem
    have hnone : pyIndexOf p._row_order src.row = none :=
      (pyIndexOf_eq_none_iff _ _).mpr hmem
    simp [DragDropReorderProxy.mapFromSource, hv, hnone]

/-- Witness for C8: the three invalid-input cases at concrete states
(source row 7 does not occur in the sample `_row_order`). -/
theorem c8_mapping_invalid_inputs_witness :
    sampleProxy.mapToSource QModelIndex.invalid = some QModelIndex.invalid
    ∧ sampleProxy.mapFromSource QModelIndex.invalid = QModelIndex.invalid
    ∧ sampleProxy.mapFromSource (createIndex 7 0) = QModelIndex.invalid :=
  ⟨(c8_mapping_invalid_inputs sampleProxy QModelIndex.invalid
      QModelIndex.invalid).1 rfl,
   (c8_mapping_invalid_inputs sampleProxy QModelIndex.invalid
      QModelIndex.invalid).2.1 rfl,
   (c8_mapping_invalid_inputs sampleProxy QModelIndex.invalid
      (createIndex 7 0)).2.2 rfl (by decide)⟩

/-- C7: `ItemModel.dropMimeData` returns `False`, leaving the model
unchanged, exactly when the action is `IgnoreAction` or the payload
lacks the `application/x-qstandarditemmodeldatalist` format. -/
theorem c7_itemmodel_drop_rejections (m : ItemModel) (data : QMimeData)
    (action : DropAction) (row col : Int) (parent : QModelIndex) :
    ((m.dropMimeData data action row col parent).1 = false ↔
      (action = DropAction.IgnoreAction ∨
        data.hasFormat "application/x-qstandarditemmodeldatalist" = false))
    ∧ ((m.dropMimeData data action row col parent).1 = false →
        (m.dropMimeData data action row col parent).2 = m) := by
  unfold ItemModel.dropMimeData
  by_cases ha : action = DropAction.IgnoreAction
  · simp [ha]
  · by_cases hf : data.hasFormat "application/x-qstandarditemmodeldatalist"
    · simp [ha, hf]
    · simp [ha, hf]

/-- Witness for C7: a drop whose payload lacks the format is rejected
and leaves the concrete model unchanged. -/
theorem c7_itemmodel_drop_rejections_witness :
    (sampleModel.dropMimeData sampleMimeNoFmt DropAction.MoveAction 0 0
      QModelIndex.invalid).2 = sampleModel :=
  (c7_itemmodel_drop_rejections sampleModel sampleMimeNoFmt
    DropAction.MoveAction 0 0 QModelIndex.invalid).2 (by decide)

/-- C1: a `MoveAction` drop with a previously recorded drag row pops the
entry at position `_current_drag_row` from `_row_order`, reinserts it at
position `min(row, length after removal)` and returns `True`; a `-1` row
argument resolves to `parent.row()` for a valid parent and to
`rowCount()` otherwise. -/
theorem c1_drop_move_reorders (p : DragDropReorderProxy) (data : QMimeData)
    (row col : Int) (parent : QModelIndex) (drag : Int)
    (hdrag : p._current_drag_row = some drag)
    (h0 : 0 ≤ drag) (hlt : drag < (p._row_order.length : Int))
    (hrow : -1 ≤ row) (hparent : parent.valid = true → 0 ≤ parent.row) :
    p.dropMimeData data DropAction.MoveAction row col parent =
      some (true,
        { p with
          _row_order :=
            insertAt
              (min (if row = -1 ∧ parent.valid = true then parent.row
                    else if row = -1 then p.rowCount else row)
                ((p._row_order.eraseIdx drag.toNat).length : Int)).toNat
              (p._row_order.getD drag.toNat 0)
              (p._row_order.eraseIdx drag.toNat) }) := by
  have htgt : 0 ≤ (if row = -1 ∧ parent.valid = true then parent.row
      else if row = -1 then p.rowCount else row) := by
    split_ifs with h1 h2
    · exact hparent h1.2
    · exact Int.natCast_nonneg _
    · omega
  unfold DragDropReorderProxy.dropMimeData
  rw [if_neg (by simp)]
  simp only [hdrag]
  rw [pyPop_of_inrange _ _ h0 hlt]
  simp only [Option.some.injEq, Prod.mk.injEq, true_and]
  rw [pyInsert_of_nonneg _ _ _ (le_min htgt (Int.natCast_nonneg _)),
    min_assoc, min_self]

/-- Witness for C1: dropping the recorded row 1 at the end (`row = -1`,
invalid parent) of the sample proxy turns `_row_order` from `[0, 1, 2]`
into `[0, 2, 1]`. -/
theorem c1_drop_move_reorders_witness :
    sampleProxy.dropMimeData sampleMime DropAction.MoveAction (-1) 0
      QModelIndex.invalid =
      some (true, { sampleProxy with _row_order := [0, 2, 1] }) := by
  rw [c1_drop_move_reorders sampleProxy sampleMime (-1) 0 QModelIndex.invalid 1
    rfl (by decide) (by decide) (by decide) (by decide)]
  decide

/-- C2: `_row_order` stays a permutation of `range(sourceModel().rowCount())` —
`_reset_mapping` makes it the identity permutation `[0, ..., rowCount-1]`,
and any non-raising `dropMimeData` call leaves it a permutation of its
previous value (a pop followed by an insert of the popped element). -/
theorem c2_row_order_permutation (p p' : DragDropReorderProxy) (b : Bool)
    (data : QMimeData) (action : DropAction) (row col : Int)
    (parent : QModelIndex) :
    ((p._reset_mapping)._row_order = (List.range p.srcRowCount).map Int.ofNat)
    ∧ (p.dropMimeData data action row col parent = some (b, p') →
        p'._row_order.Perm p._row_order) := by
  constructor
  · rfl
  · intro h
    unfold DragDropReorderProxy.dropMimeData at h
    by_cases hact : action = DropAction.MoveAction
    · rw [if_neg (by simp [hact])] at h
      cases hcur : p._current_drag_row with
      | none =>
        simp only [hcur, Option.some.injEq, Prod.mk.injEq] at h
        rw [← h.2]
      | some drag =>
        simp only [hcur] at h
        cases hpop : pyPop p._row_order drag with
        | none =>
          rw [hpop] at h
          exact Option.noConfusion h
        | some pr =>
          obtain ⟨sel, rest⟩ := pr
          rw [hpop] at h
          simp only [Option.some.injEq, Prod.mk.injEq] at h
          have hrows : p'._row_order = pyInsert rest
              (min (if row = -1 ∧ parent.valid = true then parent.row
                else if row = -1 then p.rowCount else row) (rest.length : Int))
              sel := by
            rw [← h.2]
          rw [hrows]
          exact (pyInsert_perm _ _ _).trans (pyPop_perm _ _ _ _ hpop)
    · rw [if_pos (by simp [hact])] at h
      simp only [Option.some.injEq, Prod.mk.injEq] at h
      rw [← h.2]

/-- Witness for C2: the reset list of the sample proxy, and the drop of
the witness for C1 preserving the permutation. -/
theorem c2_row_order_permutation_witness :
    (sampleProxy._reset_mapping)._row_order =
      (List.range sampleProxy.srcRowCount).map Int.ofNat
    ∧ ([0, 2, 1] : List Int).Perm sampleProxy._row_order :=
  ⟨(c2_row_order_permutation sampleProxy sampleProxy true sampleMime
      DropAction.MoveAction 0 0 QModelIndex.invalid).1,
   (c2_row_order_permutation sampleProxy
      { sampleProxy with _row_order := [0, 2, 1] } true sampleMime
      DropAction.MoveAction (-1) 0 QModelIndex.invalid).2 (by decide)⟩

/-- C9: a successful `ItemModel.dropMimeData` inserts the decoded rows
consecutively at the target position (the `row` argument, or `rowCount()`
when it is `-1`), preserving their order; preexisting rows keep their
relative order and `rowCount` grows by the number of decoded rows. -/
theorem c9_itemmodel_drop_inserts_rows (m : ItemModel) (data : QMimeData)
    (action : DropAction) (row col : Int) (parent : QModelIndex)
    (hact : action ≠ DropAction.IgnoreAction)
    (hfmt : data.hasFormat "application/x-qstandarditemmodeldatalist" = true)
    (hrow : row = -1 ∨ (0 ≤ row ∧ row ≤ (m.rows.length : Int))) :
    (m.dropMimeData data action row col parent).1 = true
    ∧ (m.dropMimeData data action row col parent).2.rows =
        m.rows.take (if row = -1 then m.rows.length else row.toNat)
          ++ ItemModel.collectRows data
          ++ m.rows.drop (if row = -1 then m.rows.length else row.toNat)
    ∧ (m.dropMimeData data action row col parent).2.rows.length =
        m.rows.length + (ItemModel.collectRows data).length := by
  have ht : (if row = -1 then m.rows.length else row.toNat) ≤ m.rows.length := by
    split_ifs with h1
    · exact le_refl _
    · rcases hrow with h2 | h2
      · exact absurd h2 h1
      · omega
  have hcast : (if row = -1 then m.rowCount else row) =
      ((if row = -1 then m.rows.length else row.toNat : Nat) : Int) := by
    split_ifs with h1
    · rfl
    · rcases hrow with h2 | h2
      · exact absurd h2 h1
      · omega
  have hdrop : m.dropMimeData data action row col parent =
      (true, ItemModel.insertLoop m
        ((if row = -1 then m.rows.length else row.toNat : Nat) : Int)
        (ItemModel.collectRows data)) := by
    unfold ItemModel.dropMimeData
    rw [if_neg hact, if_neg (by simp [hfmt])]
    rw [hcast]
  rw [hdrop]
  refine ⟨rfl, ?_, ?_⟩
  · exact insertLoop_rows _ _ _ ht
  · rw [insertLoop_rows _ _ _ ht]
    simp only [List.length_append, List.length_take, List.length_drop]
    omega

/-- Witness for C9: dropping the sample payload (one decoded row
`[5, 6]`) at position 1 of the two-row sample model yields the three
rows `[[1, 2], [5, 6], [3, 4]]`. -/
theorem c9_itemmodel_drop_inserts_rows_witness :
    (sampleModel.dropMimeData sampleMime DropAction.MoveAction 1 0
      QModelIndex.invalid).2.rows = [[1, 2], [5, 6], [3, 4]] := by
  rw [(c9_itemmodel_drop_inserts_rows sampleModel sampleMime
    DropAction.MoveAction 1 0 QModelIndex.invalid (by decide) (by decide)
    (by decide)).2.1]
  decide

/-- C3: round-trip identity of the two mapping functions — when
`_row_order` has no duplicates (its entries being source rows in range),
`mapFromSource (mapToSource idx)` returns an index with the same row and
column as the valid proxy index `idx`. -/
theorem c3_map_roundtrip (p : DragDropReorderProxy) (row col : Int)
    (hnd : p._row_order.Nodup)
    (hwf : ∀ x ∈ p._row_order, 0 ≤ x ∧ x < (p.srcRowCount : Int))
    (hr0 : 0 ≤ row) (hrl : row < (p._row_order.length : Int))
    (hc0 : 0 ≤ col) (hcl : col < p.columnCount) :
    (p.mapToSource (createIndex row col)).map p.mapFromSource =
      some (createIndex row col) := by
  have hn : row.toNat < p._row_order.length := by omega
  have hmem : p._row_order.getD row.toNat 0 ∈ p._row_order := by
    rw [List.getD_eq_getElem _ _ hn]
    exact List.getElem_mem hn
  obtain ⟨hs0, hsl⟩ := hwf _ hmem
  have hmap : p.mapToSource (createIndex row col) =
      some (createIndex (p._row_order.getD row.toNat 0) col) := by
    unfold DragDropReorderProxy.mapToSource
    rw [if_neg (by simp [createIndex])]
    have hget : pyGet p._row_order (createIndex row col).row =
        some (p._row_order.getD row.toNat 0) :=
      pyGet_of_inrange _ _ hr0 hrl
    rw [hget]
    show some (p.sourceIndex (p._row_order.getD row.toNat 0)
      (createIndex row col).column) = _
    unfold DragDropReorderProxy.sourceIndex
    rw [if_pos ⟨hs0, hsl, hc0, hcl⟩]
    rfl
  rw [hmap]
  show some (p.mapFromSource (createIndex (p._row_order.getD row.toNat 0) col)) = _
  unfold DragDropReorderProxy.mapFromSource
  rw [if_neg (by simp [createIndex])]
  have hidx : pyIndexOf p._row_order
      (createIndex (p._row_order.getD row.toNat 0) col).row = some row.toNat :=
    pyIndexOf_getD_of_nodup _ _ hn hnd
  rw [hidx]
  show some (p.index (row.toNat : Int)
    (createIndex (p._row_order.getD row.toNat 0) col).column QModelIndex.invalid) = _
  unfold DragDropReorderProxy.index
  rw [if_neg (by simp [QModelIndex.invalid])]
  have hbounds : (0 : Int) ≤ (row.toNat : Int)
      ∧ (row.toNat : Int) < p.rowCount
      ∧ 0 ≤ (createIndex (p._row_order.getD row.toNat 0) col).column
      ∧ (createIndex (p._row_order.getD row.toNat 0) col).column < p.columnCount := by
    refine ⟨Int.natCast_nonneg _, ?_, hc0, hcl⟩
    unfold DragDropReorderProxy.rowCount
    omega
  rw [if_pos hbounds]
  show some (createIndex (row.toNat : Int) col) = _
  rw [Int.toNat_of_nonneg hr0]

/-- Witness for C3: the round trip at row 2, column 1 of the sample
proxy. -/
theorem c3_map_roundtrip_witness :
    (sampleProxy.mapToSource (createIndex 2 1)).map sampleProxy.mapFromSource =
      some (createIndex 2 1) :=
  c3_map_roundtrip sampleProxy 2 1 (by decide) (by decide) (by decide)
    (by decide) (by decide) (by decide)
